import Mathlib

/-!
Verification of `image_processing.py` (Img2Video-creator).

The Python source is shallowly embedded below.  Conventions used throughout:

* Python strings are Lean `String`s, manipulated as `List Char` where convenient.
* `re.split` with the pattern `(?<=[.!?,])\s*` is operationalised as a character
  scanner (`scanPieces`): the regex matches (possibly zero-width) at every
  position immediately after one of the delimiter characters and greedily
  consumes the following whitespace run, so the input is cut right after every
  delimiter occurrence and the whitespace following a delimiter is discarded.
* Python `int()` truncation on nonnegative reals is `pyInt`; Python `//` is
  `Int.fdiv`; float arithmetic on sizes and durations is modelled over `ℚ`.
* PIL images are modelled at the level the claims need: `PilImage` records the
  pixel dimensions; font metrics (`draw.textbbox` widths) are an abstract
  `measure : String → Nat` parameter, with the PIL fact that the empty string
  measures zero taken as a hypothesis where needed.
* In-place mutation (ImageDraw drawing into an image) is modelled by explicit
  state passing: a mutating call returns the updated value and a Python
  variable that is not reassigned keeps its old value; `image.copy()`
  introduces a fresh value.
-/

namespace Img2Video

/-- Python whitespace test for the ASCII characters matched by `\s` and
stripped by `str.strip()`. -/
def pyIsSpace (c : Char) : Bool :=
  c = ' ' || c = '\t' || c = '\n' || c = '\r' || c = '\x0b' || c = '\x0c'

/-- The delimiter class `[.!?,]` of the splitting regex in `split_sentences`
(src line 8). -/
def isDelim (c : Char) : Bool :=
  c = '.' || c = '!' || c = '?' || c = ','

/-- Whitespace stripping from both ends of a character list
(Python `str.strip()`). -/
def stripL (l : List Char) : List Char :=
  ((l.dropWhile pyIsSpace).reverse.dropWhile pyIsSpace).reverse

/-- Python `text.strip()`. -/
def pyStrip (s : String) : String := String.mk (stripL s.toList)

/-- Operational model of `re.split` with the raw pattern `(?<=[.!?,])\s*`
applied to the text: scan the
characters, cut immediately after every delimiter and drop the whitespace run
that follows a cut.  `acc` holds the current piece reversed; `skipping` is true
exactly while the scanner sits inside the `\s*` run following a delimiter.
The trailing empty piece that `re.split` produces when the input ends with a
match is not emitted; it is dropped by the comprehension filter anyway. -/
def scanPieces : List Char → List Char → Bool → List (List Char)
  | [], acc, _ => if acc.isEmpty then [] else [acc.reverse]
  | c :: rest, acc, skipping =>
    if skipping && pyIsSpace c then scanPieces rest acc true
    else if isDelim c then (acc.reverse ++ [c]) :: scanPieces rest [] true
    else scanPieces rest (c :: acc) false

/-- Embedding of `split_sentences` (src lines 7-9): `re.split` with the raw
pattern `(?<=[.!?,])\s*` on `text.strip()`, followed by
`[sentence.strip() for sentence in sentences if sentence]`. -/
def split_sentences (text : String) : List String :=
  ((scanPieces (pyStrip text).toList [] false).filter (fun p => !p.isEmpty)).map
    (fun p => String.mk (stripL p))

/-- Python `text.split()` with no argument: maximal runs of non-whitespace
characters; `cur` holds the current word reversed. -/
def wordsAux : List Char → List Char → List (List Char)
  | [], cur => if cur.isEmpty then [] else [cur.reverse]
  | c :: cs, cur =>
    if pyIsSpace c then
      if cur.isEmpty then wordsAux cs [] else cur.reverse :: wordsAux cs []
    else wordsAux cs (c :: cur)

/-- Python `text.split()` (used at src line 39: `words = text.split()`). -/
def pyWords (s : String) : List String := (wordsAux s.toList []).map String.mk

/-- The greedy word-wrap loop of `add_centered_text_with_outline`
(src lines 43-55), parameterised by the font metric
`measure line = draw.textbbox((0,0), line, font)[2] - [0]` and the pixel
budget `maxWidth = int(image.size[0] * 0.85)`.  The Python
`f"{currentLine} {word}".strip()` equals `currentLine ++ " " ++ word` because
words carry no whitespace; the `else` branch appends `currentLine` to the
output even when it is still empty, and the trailing line is flushed only when
non-empty. -/
def wrapLoop (measure : String → Nat) (maxWidth : Nat) :
    List String → String → List String
  | [], currentLine => if currentLine = "" then [] else [currentLine]
  | w :: ws, currentLine =>
    let testLine := if currentLine = "" then w else currentLine ++ " " ++ w
    if measure testLine ≤ maxWidth then wrapLoop measure maxWidth ws testLine
    else currentLine :: wrapLoop measure maxWidth ws w

/-- The list `lines` computed inside `add_centered_text_with_outline`
(src lines 39-55) for a given text. -/
def wrap_lines (measure : String → Nat) (maxWidth : Nat) (text : String) :
    List String :=
  wrapLoop measure maxWidth (pyWords text) ""

/-- The outline colour computed at src line 67:
`(255, 255, 255) if text_color == (0, 0, 0) else (0, 0, 0)`. -/
def outline_color (textColor : Nat × Nat × Nat) : Nat × Nat × Nat :=
  if textColor = (0, 0, 0) then (255, 255, 255) else (0, 0, 0)

/-- A PIL image at the granularity the dimension claims need:
`image.size = (width, height)`. -/
structure PilImage where
  width : Nat
  height : Nat
deriving DecidableEq

/-- Python `int()` applied to a rational value (truncation toward zero). -/
def pyInt (q : ℚ) : ℤ := if 0 ≤ q then ⌊q⌋ else ⌈q⌉

/-- All quantities computed by `resize_to_aspect_ratio_with_zoom`
(src lines 11-28): the scaled size passed to `image.resize`, the paste
offsets, and the returned canvas. -/
structure ZoomResult where
  newWidth : ℤ
  newHeight : ℤ
  xOffset : ℤ
  yOffset : ℤ
  output : PilImage
deriving DecidableEq

/-- Embedding of `resize_to_aspect_ratio_with_zoom` (src lines 11-28).
Aspect ratios are exact rationals standing for the Python float quotients;
`int(...)` is `pyInt` and `//` is `Int.fdiv`.  A source of height 0 raises
`ZeroDivisionError` at `original_width / original_height`, modelled as
`none`.  The function returns `Image.new("RGB", target_resolution, black)`
with the resized source pasted on it, so the output size is the canvas
size. -/
def resize_to_aspect_ratio_with_zoom (image : PilImage) (targetAspectRatio : ℚ)
    (targetResolution : Nat × Nat := (1080, 1920)) : Option ZoomResult :=
  if image.height = 0 then none
  else
    let originalAspectRatio : ℚ := (image.width : ℚ) / (image.height : ℚ)
    let nwnh : ℤ × ℤ :=
      if originalAspectRatio < targetAspectRatio then
        (pyInt ((targetResolution.2 : ℚ) * originalAspectRatio), (targetResolution.2 : ℤ))
      else
        ((targetResolution.1 : ℤ), pyInt ((targetResolution.1 : ℚ) / originalAspectRatio))
    some {
      newWidth := nwnh.1
      newHeight := nwnh.2
      xOffset := Int.fdiv ((targetResolution.1 : ℤ) - nwnh.1) 2
      yOffset := Int.fdiv ((targetResolution.2 : ℤ) - nwnh.2) 2
      output := ⟨targetResolution.1, targetResolution.2⟩ }

/-- Embedding of `stretch_vertically_to_resolution` (src lines 30-32):
`image.resize(target_resolution, LANCZOS)` returns an image of exactly the
target size. -/
def stretch_vertically_to_resolution (image : PilImage)
    (targetResolution : Nat × Nat := (1080, 1920)) : PilImage :=
  ⟨targetResolution.1, targetResolution.2⟩

/-- The per-unit caption loop of `create_video_from_image_with_text`
(src lines 89-95), generic over the pixel representation `Frame` and the
rendering collaborator.  Each iteration calls
`add_centered_text_with_outline(image.copy(), sentence, ...)`: the drawing
mutates the copy, so the loop variable `image` is never reassigned; the state
passing below makes that explicit.  Returns the rendered frames (one clip per
sentence) together with the value of `image` after the loop. -/
def image_caption_loop {Frame : Type} (render : Frame → String → Frame) :
    List String → Frame → List Frame × Frame
  | [], image => ([], image)
  | sentence :: rest, image =>
    let copied := image
    let renderedFrame := render copied sentence
    let tail := image_caption_loop render rest image
    (renderedFrame :: tail.1, tail.2)

/-- Per-unit duration on the image path (src line 87):
`total_duration / len(sentences) if sentences else 0`. -/
def sentence_duration_image (text : String) (totalDuration : ℚ) : ℚ :=
  let ss := split_sentences text
  if ss.isEmpty then 0 else totalDuration / (ss.length : ℚ)

/-- The durations of the clips built on the image path (src lines 89-95):
one clip per sentence, each with `set_duration(sentence_duration)`. -/
def image_clip_durations (text : String) (totalDuration : ℚ) : List ℚ :=
  (split_sentences text).map (fun _ => sentence_duration_image text totalDuration)

/-- The clamp on the video path (src line 103):
`min(total_duration, video_clip.duration)`. -/
def trimmed_clip_duration (totalDuration srcDuration : ℚ) : ℚ :=
  min totalDuration srcDuration

/-- Per-unit duration on the video path (src line 106). -/
def sentence_duration_video (text : String) (totalDuration srcDuration : ℚ) : ℚ :=
  let ss := split_sentences text
  if ss.isEmpty then 0
  else trimmed_clip_duration totalDuration srcDuration / (ss.length : ℚ)

/-- The `(start_time, end_time)` pairs passed to `video_clip.subclip` on the
video path (src lines 109-112). -/
def video_slice_bounds (text : String) (totalDuration srcDuration : ℚ) :
    List (ℚ × ℚ) :=
  let d := sentence_duration_video text totalDuration srcDuration
  (List.range (split_sentences text).length).map
    (fun i : Nat => ((i : ℚ) * d, ((i : ℚ) + 1) * d))

/-- Observable outcome of one pipeline run: whether the
`"No clips were created."` message was printed, whether the final
`concatenate_videoclips` / `write_videofile` step was invoked, and how many
per-unit clips reached it. -/
structure RunTrace where
  printedNoClipsMessage : Bool
  encodingAttempted : Bool
  clipCount : Nat
deriving DecidableEq

/-- The clip list built by `create_video_from_image_with_text`
(src lines 89-95): the loop appends one clip per sentence, unconditionally. -/
def image_path_clips (text : String) : List String := split_sentences text

/-- Control-flow tail of `create_video_from_image_with_text`
(src lines 97-98): `concatenate_videoclips` and `write_videofile` are called
unconditionally — there is no emptiness guard and no message on this path. -/
def create_video_from_image_run (text : String) : RunTrace :=
  { printedNoClipsMessage := false
    encodingAttempted := true
    clipCount := (image_path_clips text).length }

/-- The clip list built by `create_video_from_video_with_text`
(src lines 109-128): unit `i` contributes a clip exactly when its slice
yields at least one frame (`if frame_clips:`), with the frame count per unit
abstracted as `framesPerUnit`. -/
def video_path_clips (text : String) (framesPerUnit : Nat → Nat) : List Nat :=
  (List.range (split_sentences text).length).filter (fun i => framesPerUnit i ≠ 0)

/-- Control-flow tail of `create_video_from_video_with_text`
(src lines 130-134): `if clips:` concatenate and write, `else:` print
`"No clips were created."` and write nothing. -/
def create_video_from_video_run (text : String) (framesPerUnit : Nat → Nat) :
    RunTrace :=
  let clips := video_path_clips text framesPerUnit
  if clips.isEmpty then
    { printedNoClipsMessage := true, encodingAttempted := false, clipCount := 0 }
  else
    { printedNoClipsMessage := false, encodingAttempted := true,
      clipCount := clips.length }

/-- Index of the last occurrence of `c` in `l`, or `-1` when absent
(Python `str.rfind`). -/
def rfindIdx (c : Char) : List Char → ℤ
  | [] => -1
  | x :: xs =>
    let r := rfindIdx c xs
    if 0 ≤ r then r + 1 else if x = c then 0 else -1

/-- The extension part of `os.path.splitext(p)` (posixpath `_splitext`):
take the suffix from the last dot, provided the dot lies after the last `/`
and at least one character strictly between them is not a dot (so dotfiles
such as `.bashrc` have no extension). -/
def splitext_ext (p : List Char) : List Char :=
  let sepIdx := rfindIdx '/' p
  let dotIdx := rfindIdx '.' p
  if sepIdx < dotIdx then
    if ((p.drop (sepIdx + 1).toNat).take (dotIdx - sepIdx - 1).toNat).any
        (fun c => c ≠ '.') then
      p.drop dotIdx.toNat
    else []
  else []

/-- Lowercased extension: `os.path.splitext(input_path)[1].lower()`
(src lines 138 and 141). -/
def extLower (p : String) : String :=
  String.mk ((splitext_ext p.toList).map Char.toLower)

/-- Recognised image extensions (src line 138). -/
def imageExts : List String := [".jpg", ".jpeg", ".png", ".bmp", ".gif"]

/-- Recognised video extensions (src line 141). -/
def videoExts : List String := [".mp4", ".mov", ".avi", ".mkv", ".wmv"]

/-- The pipeline selected by the dispatcher. -/
inductive Route where
  | image : Route
  | video : Route
deriving DecidableEq

/-- Embedding of the dispatcher `create_video_from_media_with_text`
(src lines 136-145): route on the lowercased extension, or raise
`ValueError("Unsupported file format")` before either pipeline runs. -/
def create_video_from_media_with_text (path : String) : Except String Route :=
  if extLower path ∈ imageExts then Except.ok Route.image
  else if extLower path ∈ videoExts then Except.ok Route.video
  else Except.error "Unsupported file format"

/-! ### Helper lemmas about the sentence splitter -/

theorem delim_not_space {c : Char} (h : isDelim c = true) : pyIsSpace c = false := by
  simp only [isDelim, Bool.or_eq_true, decide_eq_true_eq] at h
  rcases h with ((h | h) | h) | h <;> subst h <;> decide

theorem exists_not_space_dropWhile (l : List Char) :
    (∃ c ∈ l, pyIsSpace c = false) →
    ∃ c ∈ l.dropWhile pyIsSpace, pyIsSpace c = false := by
  induction l with
  | nil => intro h; exact h
  | cons a t ih =>
    intro h
    rcases h with ⟨c, hc, hcs⟩
    rcases List.mem_cons.mp hc with rfl | hct
    · rw [List.dropWhile_cons, if_neg (by simp [hcs])]
      exact ⟨c, List.mem_cons_self c t, hcs⟩
    · by_cases ha : pyIsSpace a = true
      · rw [List.dropWhile_cons, if_pos ha]
        exact ih ⟨c, hct, hcs⟩
      · rw [List.dropWhile_cons, if_neg ha]
        exact ⟨c, List.mem_cons_of_mem a hct, hcs⟩

theorem stripL_exists_not_space {l : List Char}
    (h : ∃ c ∈ l, pyIsSpace c = false) :
    ∃ c ∈ stripL l, pyIsSpace c = false := by
  unfold stripL
  have h1 := exists_not_space_dropWhile l h
  have h2 : ∃ c ∈ (l.dropWhile pyIsSpace).reverse, pyIsSpace c = false := by
    rcases h1 with ⟨c, hc, hcs⟩
    exact ⟨c, List.mem_reverse.mpr hc, hcs⟩
  rcases exists_not_space_dropWhile _ h2 with ⟨c, hc, hcs⟩
  exact ⟨c, List.mem_reverse.mpr hc, hcs⟩

theorem head_dropWhile_not_space (l : List Char) :
    ∀ c, (l.dropWhile pyIsSpace).head? = some c → pyIsSpace c = false := by
  induction l with
  | nil => intro c h; simp at h
  | cons a t ih =>
    intro c h
    cases ha : pyIsSpace a with
    | true =>
      rw [List.dropWhile_cons, if_pos ha] at h
      exact ih c h
    | false =>
      rw [List.dropWhile_cons, if_neg (by simp [ha])] at h
      rw [List.head?_cons, Option.some.injEq] at h
      subst h
      exact ha

theorem dropWhile_isSuffix (p : Char → Bool) (l : List Char) :
    l.dropWhile p <:+ l := by
  induction l with
  | nil => exact List.suffix_refl []
  | cons a t ih =>
    rw [List.dropWhile_cons]
    by_cases hp : p a = true
    · rw [if_pos hp]
      exact ih.trans (List.suffix_cons a t)
    · rw [if_neg hp]

theorem stripL_isPrefix (l : List Char) : stripL l <+: l.dropWhile pyIsSpace := by
  unfold stripL
  rcases dropWhile_isSuffix pyIsSpace (l.dropWhile pyIsSpace).reverse with ⟨t, ht⟩
  refine ⟨t.reverse, ?_⟩
  calc ((l.dropWhile pyIsSpace).reverse.dropWhile pyIsSpace).reverse ++ t.reverse
      = (t ++ (l.dropWhile pyIsSpace).reverse.dropWhile pyIsSpace).reverse := by
        rw [List.reverse_append]
    _ = (l.dropWhile pyIsSpace).reverse.reverse := by rw [ht]
    _ = l.dropWhile pyIsSpace := List.reverse_reverse _

theorem head_stripL_not_space (l : List Char) :
    ∀ c, (stripL l).head? = some c → pyIsSpace c = false := by
  intro c h
  rcases stripL_isPrefix l with ⟨t, ht⟩
  cases hs : stripL l with
  | nil => rw [hs] at h; cases h
  | cons d tl =>
    rw [hs] at h
    rw [List.head?_cons, Option.some.injEq] at h
    subst h
    apply head_dropWhile_not_space l
    rw [hs] at ht
    rw [← ht, List.cons_append, List.head?_cons]

theorem scanPieces_ne_nil :
    ∀ (l acc : List Char) (skipping : Bool), ∀ p ∈ scanPieces l acc skipping,
      p ≠ [] := by
  intro l
  induction l with
  | nil =>
    intro acc skipping p hp
    cases acc with
    | nil => simp [scanPieces] at hp
    | cons b bt =>
      simp [scanPieces] at hp
      subst hp
      simp
  | cons a rest ih =>
    intro acc skipping p hp
    simp only [scanPieces] at hp
    by_cases hskip : (skipping && pyIsSpace a) = true
    · rw [if_pos hskip] at hp
      exact ih acc true p hp
    · rw [if_neg hskip] at hp
      by_cases hdel : isDelim a = true
      · rw [if_pos hdel] at hp
        rcases List.mem_cons.mp hp with rfl | hp'
        · simp
        · exact ih [] true p hp'
      · rw [if_neg hdel] at hp
        exact ih (a :: acc) false p hp

theorem scanPieces_exists_not_space :
    ∀ (l acc : List Char) (skipping : Bool),
      (acc = [] → skipping = false → ∀ c, l.head? = some c → pyIsSpace c = false) →
      (∀ c, acc.getLast? = some c → pyIsSpace c = false) →
      ∀ p ∈ scanPieces l acc skipping, ∃ c ∈ p, pyIsSpace c = false := by
  intro l
  induction l with
  | nil =>
    intro acc skipping _ h2 p hp
    cases acc with
    | nil => simp [scanPieces] at hp
    | cons b bt =>
      simp only [scanPieces] at hp
      rw [if_neg (by simp)] at hp
      rcases List.mem_singleton.mp hp with rfl
      have hlast : (b :: bt).getLast? = some ((b :: bt).getLast (by simp)) :=
        List.getLast?_eq_getLast _ (by simp)
      exact ⟨(b :: bt).getLast (by simp),
        List.mem_reverse.mpr (List.getLast_mem (by simp)), h2 _ hlast⟩
  | cons a rest ih =>
    intro acc skipping h1 h2 p hp
    simp only [scanPieces] at hp
    by_cases hskip : (skipping && pyIsSpace a) = true
    · rw [if_pos hskip] at hp
      refine ih acc true ?_ h2 p hp
      intro _ hcontr
      cases hcontr
    · rw [if_neg hskip] at hp
      by_cases hdel : isDelim a = true
      · rw [if_pos hdel] at hp
        rcases List.mem_cons.mp hp with rfl | hp'
        · exact ⟨a, by simp, delim_not_space hdel⟩
        · refine ih [] true ?_ ?_ p hp'
          · intro _ hcontr
            cases hcontr
          · intro c hc
            cases hc
      · rw [if_neg hdel] at hp
        refine ih (a :: acc) false ?_ ?_ p hp
        · intro hcontr
          cases hcontr
        · intro c hc
          cases acc with
          | nil =>
            simp only [List.getLast?_singleton, Option.some.injEq] at hc
            subst hc
            cases hsk : skipping with
            | true =>
              rw [hsk] at hskip
              simpa using hskip
            | false =>
              exact h1 rfl hsk _ rfl
          | cons b bt =>
            rw [List.getLast?_cons_cons] at hc
            exact h2 c hc

theorem scanPieces_dropLast_delim :
    ∀ (l acc : List Char) (skipping : Bool),
      ∀ p ∈ (scanPieces l acc skipping).dropLast,
        ∃ c, p.getLast? = some c ∧ isDelim c = true := by
  intro l
  induction l with
  | nil =>
    intro acc skipping p hp
    cases acc with
    | nil => simp [scanPieces] at hp
    | cons b bt => simp [scanPieces] at hp
  | cons a rest ih =>
    intro acc skipping p hp
    simp only [scanPieces] at hp
    by_cases hskip : (skipping && pyIsSpace a) = true
    · rw [if_pos hskip] at hp
      exact ih acc true p hp
    · rw [if_neg hskip] at hp
      by_cases hdel : isDelim a = true
      · rw [if_pos hdel] at hp
        cases hrest : scanPieces rest [] true with
        | nil =>
          rw [hrest] at hp
          simp at hp
        | cons r rs =>
          rw [hrest] at hp
          have hdl : ((acc.reverse ++ [a]) :: r :: rs).dropLast =
              (acc.reverse ++ [a]) :: (r :: rs).dropLast := rfl
          rw [hdl] at hp
          rcases List.mem_cons.mp hp with rfl | hp'
          · exact ⟨a, List.getLast?_concat _, hdel⟩
          · rw [← hrest] at hp'
            exact ih [] true p hp'
      · rw [if_neg hdel] at hp
        exact ih (a :: acc) false p hp

theorem getLast?_dropWhile_of_not_space :
    ∀ (l : List Char) (c : Char), l.getLast? = some c → pyIsSpace c = false →
      (l.dropWhile pyIsSpace).getLast? = some c := by
  intro l
  induction l with
  | nil => intro c h _; cases h
  | cons a t ih =>
    intro c h hcs
    by_cases ha : pyIsSpace a = true
    · rw [List.dropWhile_cons, if_pos ha]
      cases t with
      | nil =>
        simp only [List.getLast?_singleton, Option.some.injEq] at h
        subst h
        rw [ha] at hcs
        cases hcs
      | cons b bt =>
        rw [List.getLast?_cons_cons] at h
        exact ih c h hcs
    · rw [List.dropWhile_cons, if_neg ha]
      exact h

theorem stripL_getLast_of_not_space (l : List Char) (c : Char)
    (h : l.getLast? = some c) (hcs : pyIsSpace c = false) :
    (stripL l).getLast? = some c := by
  have hq : (l.dropWhile pyIsSpace).getLast? = some c :=
    getLast?_dropWhile_of_not_space l c h hcs
  have hrev : (l.dropWhile pyIsSpace).reverse.head? = some c := by
    rw [List.head?_reverse]
    exact hq
  cases hr : (l.dropWhile pyIsSpace).reverse with
  | nil => rw [hr] at hrev; cases hrev
  | cons d dt =>
    rw [hr] at hrev
    rw [List.head?_cons, Option.some.injEq] at hrev
    subst hrev
    unfold stripL
    rw [hr, List.dropWhile_cons, if_neg (by simp [hcs])]
    rw [List.getLast?_reverse]
    rfl

theorem scanPieces_filter_eq (l acc : List Char) (skipping : Bool) :
    (scanPieces l acc skipping).filter (fun p => !p.isEmpty) =
      scanPieces l acc skipping := by
  apply List.filter_eq_self.mpr
  intro p hp
  have hne := scanPieces_ne_nil l acc skipping p hp
  cases p with
  | nil => exact absurd rfl hne
  | cons x xs => rfl

theorem dropLast_map_local {α β : Type} (f : α → β) :
    ∀ l : List α, (l.map f).dropLast = l.dropLast.map f := by
  intro l
  induction l with
  | nil => rfl
  | cons a t ih =>
    cases t with
    | nil => rfl
    | cons b bt =>
      have h1 : ((a :: b :: bt).map f).dropLast =
          f a :: ((b :: bt).map f).dropLast := rfl
      have h2 : ((a :: b :: bt).dropLast).map f =
          f a :: ((b :: bt).dropLast).map f := rfl
      rw [h1, h2, ih]

/-! ### Claim C2 -/

/-- C2: for every input string, `split_sentences` returns only non-empty,
non-whitespace-only caption units; every unit except possibly the last ends
with one of the delimiters `.`, `!`, `?`, `,` (the delimiter is kept at the
end of the preceding unit and the whitespace that follows it is discarded by
the scan); the empty string yields the empty sequence; and
`split_sentences "A. B! C, D" = ["A.", "B!", "C,", "D"]`. -/
theorem split_sentences_spec :
    (∀ text : String, ∀ u ∈ split_sentences text,
        u ≠ "" ∧ ∃ c ∈ u.toList, pyIsSpace c = false) ∧
    (∀ text : String, ∀ u ∈ (split_sentences text).dropLast,
        ∃ c, u.toList.getLast? = some c ∧ isDelim c = true) ∧
    split_sentences "" = [] ∧
    split_sentences "A. B! C, D" = ["A.", "B!", "C,", "D"] := by
  refine ⟨?_, ?_, by decide, by decide⟩
  · intro text u hu
    unfold split_sentences at hu
    rw [scanPieces_filter_eq] at hu
    rcases List.mem_map.mp hu with ⟨p, hp, rfl⟩
    have hnws : ∃ c ∈ p, pyIsSpace c = false := by
      refine scanPieces_exists_not_space _ [] false ?_ ?_ p hp
      · intro _ _ c hc
        exact head_stripL_not_space text.toList c hc
      · intro c hc
        cases hc
    have hstrip := stripL_exists_not_space hnws
    constructor
    · rcases hstrip with ⟨c, hc, _⟩
      intro he
      have hnil : stripL p = [] := congrArg String.toList he
      rw [hnil] at hc
      cases hc
    · exact hstrip
  · intro text u hu
    unfold split_sentences at hu
    rw [scanPieces_filter_eq, dropLast_map_local] at hu
    rcases List.mem_map.mp hu with ⟨p, hp, rfl⟩
    rcases scanPieces_dropLast_delim _ [] false p hp with ⟨c, hlast, hdel⟩
    exact ⟨c, stripL_getLast_of_not_space p c hlast (delim_not_space hdel), hdel⟩

/-- Concrete instantiation of `split_sentences_spec`. -/
theorem split_sentences_spec_witness :
    "A." ≠ "" ∧ ∃ c ∈ "A.".toList, pyIsSpace c = false :=
  split_sentences_spec.1 "A. B! C, D" "A." (by decide)

/-! ### Claims C3 and C10: the greedy word wrap -/

theorem wordsAux_words :
    ∀ (l cur : List Char), (∀ c ∈ cur, pyIsSpace c = false) →
      ∀ w ∈ wordsAux l cur, w ≠ [] ∧ ∀ c ∈ w, pyIsSpace c = false := by
  intro l
  induction l with
  | nil =>
    intro cur hcur w hw
    cases cur with
    | nil => simp [wordsAux] at hw
    | cons b bt =>
      simp only [wordsAux] at hw
      rw [if_neg (by simp)] at hw
      rcases List.mem_singleton.mp hw with rfl
      refine ⟨by simp, ?_⟩
      intro c hc
      exact hcur c (List.mem_reverse.mp hc)
  | cons a cs ih =>
    intro cur hcur w hw
    simp only [wordsAux] at hw
    by_cases ha : pyIsSpace a = true
    · rw [if_pos ha] at hw
      by_cases hc : cur.isEmpty
      · rw [if_pos hc] at hw
        exact ih [] (by intro c h; cases h) w hw
      · rw [if_neg hc] at hw
        rcases List.mem_cons.mp hw with rfl | hw'
        · refine ⟨?_, ?_⟩
          · intro he
            rw [List.reverse_eq_nil_iff] at he
            rw [he] at hc
            exact hc rfl
          · intro c h
            exact hcur c (List.mem_reverse.mp h)
        · exact ih [] (by intro c h; cases h) w hw'
    · rw [if_neg ha] at hw
      refine ih (a :: cur) ?_ w hw
      intro c h
      rcases List.mem_cons.mp h with rfl | h'
      · simpa using ha
      · exact hcur c h'

theorem pyWords_single_word (s : String) :
    ∀ w ∈ pyWords s, w ≠ "" ∧ ∀ c ∈ w.toList, pyIsSpace c = false := by
  intro w hw
  unfold pyWords at hw
  rcases List.mem_map.mp hw with ⟨p, hp, rfl⟩
  rcases wordsAux_words s.toList [] (by intro c h; cases h) p hp with ⟨hne, hall⟩
  constructor
  · intro he
    exact hne (congrArg String.toList he)
  · exact hall

theorem wrapLoop_mem :
    ∀ (measure : String → Nat) (maxWidth : Nat) (ws S : List String)
      (currentLine : String),
      measure "" = 0 →
      (∀ w ∈ ws, w ∈ S) →
      (currentLine = "" ∨ measure currentLine ≤ maxWidth ∨ currentLine ∈ S) →
      ∀ line ∈ wrapLoop measure maxWidth ws currentLine,
        measure line ≤ maxWidth ∨ line ∈ S := by
  intro measure maxWidth ws
  induction ws with
  | nil =>
    intro S currentLine hms _ hinv line hl
    simp only [wrapLoop] at hl
    by_cases hc : currentLine = ""
    · rw [if_pos hc] at hl
      cases hl
    · rw [if_neg hc] at hl
      rcases List.mem_singleton.mp hl with rfl
      rcases hinv with h | h | h
      · exact absurd h hc
      · exact Or.inl h
      · exact Or.inr h
  | cons w ws' ih =>
    intro S currentLine hms hsub hinv line hl
    simp only [wrapLoop] at hl
    by_cases hfit :
        measure (if currentLine = "" then w else currentLine ++ " " ++ w) ≤ maxWidth
    · rw [if_pos hfit] at hl
      refine ih S _ hms (fun x hx => hsub x (List.mem_cons_of_mem w hx))
        (Or.inr (Or.inl hfit)) line hl
    · rw [if_neg hfit] at hl
      rcases List.mem_cons.mp hl with rfl | hl'
      · rcases hinv with h | h | h
        · rw [h, hms]
          exact Or.inl (Nat.zero_le _)
        · exact Or.inl h
        · exact Or.inr h
      · refine ih S w hms (fun x hx => hsub x (List.mem_cons_of_mem w hx))
          (Or.inr (Or.inr (hsub w (List.mem_cons_self w ws')))) line hl'

/-- C3: every line emitted by the greedy wrap of
`add_centered_text_with_outline` measures within the pixel budget, except a
line that is a single (whitespace-free, non-empty) word of the input text,
which is placed alone on its own line.  The hypothesis `measure "" = 0` is
the PIL fact that `draw.textbbox` gives the empty string zero width; it is
needed because the loop can flush a still-empty current line (see C10), and
that empty line trivially fits any budget. -/
theorem wrap_lines_budget :
    ∀ (measure : String → Nat) (maxWidth : Nat) (text : String)
      (line : String),
      measure "" = 0 →
      line ∈ wrap_lines measure maxWidth text →
      measure line ≤ maxWidth ∨
        (line ∈ pyWords text ∧ line ≠ "" ∧
          ∀ c ∈ line.toList, pyIsSpace c = false) := by
  intro measure maxWidth text line hms hl
  have h := wrapLoop_mem measure maxWidth (pyWords text) (pyWords text) ""
    hms (fun _ hx => hx) (Or.inl rfl) line hl
  rcases h with h | h
  · exact Or.inl h
  · rcases pyWords_single_word text line h with ⟨hne, hall⟩
    exact Or.inr ⟨h, hne, hall⟩

/-- Concrete instantiation of `wrap_lines_budget` with the character-count
metric: the committed line `"ab cd"` fits the budget 5. -/
theorem wrap_lines_budget_witness :
    String.length "ab cd" ≤ 5 ∨
      ("ab cd" ∈ pyWords "ab cd ef" ∧ "ab cd" ≠ "" ∧
        ∀ c ∈ "ab cd".toList, pyIsSpace c = false) :=
  wrap_lines_budget String.length 5 "ab cd ef" "ab cd" rfl (by decide)

/-- C10: when the first word of the text alone exceeds the wrap budget, the
still-empty current line is flushed unconditionally, so the first emitted
line is the empty string and wrapped lines are not guaranteed non-empty. -/
theorem wrap_lines_oversized_first_word :
    ∀ (measure : String → Nat) (maxWidth : Nat) (text w : String),
      (pyWords text).head? = some w →
      maxWidth < measure w →
      (wrap_lines measure maxWidth text).head? = some "" ∧
        "" ∈ wrap_lines measure maxWidth text := by
  intro measure maxWidth text w hhead hover
  cases hws : pyWords text with
  | nil => rw [hws] at hhead; cases hhead
  | cons w0 rest =>
    rw [hws, List.head?_cons, Option.some.injEq] at hhead
    subst hhead
    unfold wrap_lines
    rw [hws]
    simp only [wrapLoop, if_true]
    rw [if_neg (Nat.not_le.mpr hover)]
    exact ⟨rfl, List.mem_cons_self _ _⟩

/-- Concrete instantiation of `wrap_lines_oversized_first_word`. -/
theorem wrap_lines_oversized_first_word_witness :
    (wrap_lines String.length 1 "abc").head? = some "" ∧
      "" ∈ wrap_lines String.length 1 "abc" :=
  wrap_lines_oversized_first_word String.length 1 "abc" "abc" (by decide)
    (by decide)

/-! ### Claim C9 -/

/-- C9: on the image path each caption unit renders into its own copy of the
base frame.  The loop state `base` (the Python variable `image`) is unchanged
after every iteration, and every produced clip frame is the render of a fresh
copy of the pristine base — so text burned in for one unit never appears in
the frames of another unit. -/
theorem image_caption_loop_preserves_base :
    ∀ {Frame : Type} (render : Frame → String → Frame)
      (sentences : List String) (base : Frame),
      (image_caption_loop render sentences base).2 = base ∧
      (image_caption_loop render sentences base).1 =
        sentences.map (fun s => render base s) := by
  intro Frame render sentences base
  induction sentences with
  | nil => exact ⟨rfl, rfl⟩
  | cons s rest ih =>
    simp only [image_caption_loop, List.map_cons]
    exact ⟨ih.1, by rw [ih.2]⟩

/-! ### Claims C4 and C6: the frame transformers -/

/-- C4: for a source of nonzero dimensions, both transformer variants return
a frame of exactly the target resolution: the letterbox variant pastes onto a
fresh canvas of the target size, and the stretch variant resizes directly to
the target size. -/
theorem frame_transformer_dimensions :
    ∀ (image : PilImage) (targetAspectRatio : ℚ) (targetResolution : Nat × Nat),
      0 < image.width → 0 < image.height →
      (∃ z, resize_to_aspect_ratio_with_zoom image targetAspectRatio
            targetResolution = some z ∧
          z.output = ⟨targetResolution.1, targetResolution.2⟩) ∧
      stretch_vertically_to_resolution image targetResolution =
        ⟨targetResolution.1, targetResolution.2⟩ := by
  intro image ar tr _ hh
  constructor
  · unfold resize_to_aspect_ratio_with_zoom
    rw [if_neg (Nat.pos_iff_ne_zero.mp hh)]
    exact ⟨_, rfl, rfl⟩
  · rfl

/-- Concrete instantiation of `frame_transformer_dimensions`. -/
theorem frame_transformer_dimensions_witness :
    (∃ z, resize_to_aspect_ratio_with_zoom ⟨100, 200⟩ (9 / 16) (1080, 1920) =
        some z ∧ z.output = ⟨1080, 1920⟩) ∧
    stretch_vertically_to_resolution ⟨100, 200⟩ (1080, 1920) = ⟨1080, 1920⟩ :=
  frame_transformer_dimensions ⟨100, 200⟩ (9 / 16) (1080, 1920) (by decide)
    (by decide)

/-- C6: a source whose aspect ratio is exactly the target ratio 9/16 scales
to exactly 1080 by 1920, so both paste offsets are zero and no padding is
visible. -/
theorem letterbox_zero_padding :
    ∀ image : PilImage, image.height ≠ 0 →
      (image.width : ℚ) / (image.height : ℚ) = 9 / 16 →
      ∃ z, resize_to_aspect_ratio_with_zoom image (9 / 16) (1080, 1920) =
          some z ∧
        z.newWidth = 1080 ∧ z.newHeight = 1920 ∧ z.xOffset = 0 ∧ z.yOffset = 0 := by
  intro image hh hr
  refine ⟨⟨1080, 1920, 0, 0, ⟨1080, 1920⟩⟩, ?_, rfl, rfl, rfl, rfl⟩
  have hq : ((1080 : ℚ) / ((9 : ℚ) / 16)) = 1920 := by norm_num
  have hfdiv : Int.fdiv 0 2 = 0 := rfl
  simp only [resize_to_aspect_ratio_with_zoom, if_neg hh, hr, lt_self_iff_false,
    if_false, hq]
  norm_num [pyInt, hfdiv]

/-- Concrete instantiation of `letterbox_zero_padding` on a 540 by 960
source. -/
theorem letterbox_zero_padding_witness :
    ∃ z, resize_to_aspect_ratio_with_zoom ⟨540, 960⟩ (9 / 16) (1080, 1920) =
        some z ∧
      z.newWidth = 1080 ∧ z.newHeight = 1920 ∧ z.xOffset = 0 ∧ z.yOffset = 0 :=
  letterbox_zero_padding ⟨540, 960⟩ (by decide) (by norm_num)

/-! ### Claim C5: duration allocation -/

theorem isEmpty_false_of_ne_nil {α : Type} {l : List α} (h : l ≠ []) :
    l.isEmpty = false := by
  cases l with
  | nil => exact absurd rfl h
  | cons a t => rfl

theorem sum_map_const_rat {α : Type} (l : List α) (c : ℚ) :
    (l.map (fun _ => c)).sum = (l.length : ℚ) * c := by
  induction l with
  | nil => simp
  | cons a t ih =>
    simp only [List.map_cons, List.sum_cons, List.length_cons, ih]
    push_cast
    ring

/-- C5: with N at least 1 caption units, every allocated per-unit duration is
E divided by N and the allocations sum to E, where E is the requested total
on the image path and the clamp `min(requested, source duration)` on the
video path; the scenario text with total duration 10 yields exactly two units
of 5 seconds each. -/
theorem duration_allocation :
    ∀ (text : String) (totalDuration srcDuration : ℚ),
      split_sentences text ≠ [] →
      (∀ d ∈ image_clip_durations text totalDuration,
          d = totalDuration / ((split_sentences text).length : ℚ)) ∧
      (image_clip_durations text totalDuration).sum = totalDuration ∧
      (∀ b ∈ video_slice_bounds text totalDuration srcDuration,
          b.2 - b.1 = trimmed_clip_duration totalDuration srcDuration /
            ((split_sentences text).length : ℚ)) ∧
      ((video_slice_bounds text totalDuration srcDuration).map
          (fun b => b.2 - b.1)).sum =
        trimmed_clip_duration totalDuration srcDuration ∧
      split_sentences "Hello world. Goodbye!" = ["Hello world.", "Goodbye!"] ∧
      image_clip_durations "Hello world. Goodbye!" 10 = [5, 5] := by
  intro text D src hne
  have hn0 : (split_sentences text).length ≠ 0 :=
    Nat.pos_iff_ne_zero.mp (List.length_pos.mpr hne)
  have hlen : ((split_sentences text).length : ℚ) ≠ 0 := Nat.cast_ne_zero.mpr hn0
  have hdurI : sentence_duration_image text D =
      D / ((split_sentences text).length : ℚ) := by
    simp [sentence_duration_image, isEmpty_false_of_ne_nil hne]
  have hdurV : sentence_duration_video text D src =
      trimmed_clip_duration D src / ((split_sentences text).length : ℚ) := by
    simp [sentence_duration_video, isEmpty_false_of_ne_nil hne]
  refine ⟨?_, ?_, ?_, ?_, by decide, ?_⟩
  · intro d hd
    unfold image_clip_durations at hd
    rcases List.mem_map.mp hd with ⟨_, _, rfl⟩
    exact hdurI
  · unfold image_clip_durations
    rw [sum_map_const_rat, hdurI, mul_comm, div_mul_cancel₀ _ hlen]
  · intro b hb
    unfold video_slice_bounds at hb
    rcases List.mem_map.mp hb with ⟨i, _, rfl⟩
    simp only
    rw [← hdurV]
    ring
  · unfold video_slice_bounds
    rw [List.map_map]
    have hconst : (List.range (split_sentences text).length).map
        ((fun b : ℚ × ℚ => b.2 - b.1) ∘ fun i : Nat =>
          ((i : ℚ) * sentence_duration_video text D src,
            ((i : ℚ) + 1) * sentence_duration_video text D src)) =
        (List.range (split_sentences text).length).map
          (fun _ => sentence_duration_video text D src) := by
      apply List.map_congr_left
      intro i _
      simp only [Function.comp_apply]
      ring
    rw [hconst, sum_map_const_rat, List.length_range, hdurV, mul_comm,
      div_mul_cancel₀ _ hlen]
  · have h2 : split_sentences "Hello world. Goodbye!" =
        ["Hello world.", "Goodbye!"] := by decide
    simp [image_clip_durations, sentence_duration_image, h2]
    norm_num

/-- Concrete instantiation of `duration_allocation`: the image-path
allocations for the scenario text sum to the requested 10 seconds. -/
theorem duration_allocation_witness :
    (image_clip_durations "Hello world. Goodbye!" 10).sum = 10 :=
  (duration_allocation "Hello world. Goodbye!" 10 3 (by decide)).2.1

/-! ### Claim C7: the outline colour -/

/-- C7: the outline colour is white exactly for a black fill, black for any
other fill, and never equal to the fill colour. -/
theorem outline_color_contrast :
    ∀ c : Nat × Nat × Nat,
      (c = (0, 0, 0) → outline_color c = (255, 255, 255)) ∧
      (c ≠ (0, 0, 0) → outline_color c = (0, 0, 0)) ∧
      outline_color c ≠ c := by
  intro c
  by_cases h : c = (0, 0, 0)
  · subst h
    exact ⟨fun _ => rfl, fun hc => absurd rfl hc, by decide⟩
  · refine ⟨fun hc => absurd hc h, fun _ => ?_, ?_⟩
    · unfold outline_color
      rw [if_neg h]
    · unfold outline_color
      rw [if_neg h]
      exact fun he => h he.symm

/-- Concrete instantiation of `outline_color_contrast`. -/
theorem outline_color_contrast_witness :
    outline_color (0, 0, 0) = (255, 255, 255) ∧
      outline_color (10, 20, 30) = (0, 0, 0) :=
  ⟨(outline_color_contrast (0, 0, 0)).1 rfl,
    (outline_color_contrast (10, 20, 30)).2.1 (by decide)⟩

/-! ### Claim C8: the media dispatcher -/

/-- C8: the dispatcher routes on the lowercased file extension only: a
recognised image extension selects the image pipeline, a recognised video
extension selects the video pipeline, and anything else raises
`ValueError("Unsupported file format")` before either pipeline (and hence any
frame processing) runs. -/
theorem media_dispatcher_routing :
    ∀ path : String,
      (extLower path ∈ imageExts →
        create_video_from_media_with_text path = Except.ok Route.image) ∧
      (extLower path ∈ videoExts →
        create_video_from_media_with_text path = Except.ok Route.video) ∧
      (extLower path ∉ imageExts → extLower path ∉ videoExts →
        create_video_from_media_with_text path =
          Except.error "Unsupported file format") := by
  intro path
  refine ⟨?_, ?_, ?_⟩
  · intro h
    simp [create_video_from_media_with_text, h]
  · intro h
    have himg : extLower path ∉ imageExts := by
      intro h2
      simp only [imageExts, List.mem_cons, List.mem_singleton,
        List.not_mem_nil, or_false] at h2
      rcases h2 with h2 | h2 | h2 | h2 | h2 <;> rw [h2] at h <;>
        exact absurd h (by decide)
    simp [create_video_from_media_with_text, himg, h]
  · intro h1 h2
    simp [create_video_from_media_with_text, h1, h2]

/-- Concrete instantiation of `media_dispatcher_routing`: an uppercase image
extension routes to the image pipeline, and a `.txt` file is rejected. -/
theorem media_dispatcher_routing_witness :
    create_video_from_media_with_text "photo.JPG" = Except.ok Route.image ∧
      create_video_from_media_with_text "notes.txt" =
        Except.error "Unsupported file format" :=
  ⟨(media_dispatcher_routing "photo.JPG").1 (by decide),
    (media_dispatcher_routing "notes.txt").2.2 (by decide) (by decide)⟩

/-! ### Claim C1: the empty-clips guard -/

/-- C1 counterexample: on the image path a run whose clip list is empty (the
caption text segments into zero units) does NOT report the no-clips message
and does NOT skip the final encoding step — `concatenate_videoclips` and
`write_videofile` are reached unconditionally (src lines 97-98), unlike the
guarded video path (src lines 130-134). -/
theorem no_clips_guard_counterexample :
    image_path_clips "" = [] ∧
    ¬ ((create_video_from_image_run "").printedNoClipsMessage = true ∧
        (create_video_from_image_run "").encodingAttempted = false) := by
  decide

/-- C1 amended: only the video path absorbs the zero-clips condition — when
its clip list is empty it prints `"No clips were created."` and skips final
encoding; the image path has no such guard and always proceeds to the final
concatenation and encoding step with no report, even with zero clips. -/
theorem no_clips_guard :
    ∀ (text : String) (framesPerUnit : Nat → Nat),
      (video_path_clips text framesPerUnit = [] →
        create_video_from_video_run text framesPerUnit =
          { printedNoClipsMessage := true, encodingAttempted := false,
            clipCount := 0 }) ∧
      (video_path_clips text framesPerUnit ≠ [] →
        (create_video_from_video_run text framesPerUnit).printedNoClipsMessage
            = false ∧
        (create_video_from_video_run text framesPerUnit).encodingAttempted
            = true) ∧
      (create_video_from_image_run text).printedNoClipsMessage = false ∧
      (create_video_from_image_run text).encodingAttempted = true := by
  intro text fpu
  refine ⟨?_, ?_, rfl, rfl⟩
  · intro h
    simp [create_video_from_video_run, h]
  · intro h
    simp [create_video_from_video_run, isEmpty_false_of_ne_nil h]

/-- Concrete instantiation of `no_clips_guard`. -/
theorem no_clips_guard_witness :
    create_video_from_video_run "" (fun _ => 0) =
      { printedNoClipsMessage := true, encodingAttempted := false,
        clipCount := 0 } :=
  (no_clips_guard "" (fun _ => 0)).1 (by decide)

end Img2Video

